import Mathlib

/-!
Shallow embedding of the RAG chatbot in `src/app` (`chatbot.py`,
`embeddings.py`, `file_processor.py`, `main.py`).

Modelling conventions:
* LangChain chat messages (`InMemoryChatMessageHistory.messages`) become an
  explicit list of `Message` values held in `ChatBotState`; the LangChain
  `ConversationBufferMemory` string rendering (`get_buffer_string`) is
  translated in `getBufferString`.
* External capabilities are inputs: the Qdrant search call's outcome is an
  `Except` value in `World.searchOutcome`, the Ollama LLM is a function
  `World.llm : String → Except String String` (error = raised exception).
* Python dicts with string keys become insertion-ordered association lists
  (`Dict`); payload values are modelled as strings (the code stores strings
  and small integers; the distinction plays no role in any property proved
  here).
* Floating-point embedding vectors and similarity scores are abstracted to
  integer vectors/scores: no property proved here computes with them, they
  are only carried through.
* Python functions that can raise return `Except String _`.
-/

/-- A LangChain chat message as stored in `InMemoryChatMessageHistory`:
either a human (user) message or an AI message, each carrying text content. -/
inductive Message where
  | human (content : String)
  | ai (content : String)
  deriving DecidableEq, Repr

/-- Content accessor used by `ChatBot.get_history` (`messages[i].content`). -/
def Message.content : Message → String
  | .human c => c
  | .ai c => c

/-- State of a `ChatBot` instance (`chatbot.py` lines 19-51): the configured
`memory_limit` and the underlying `InMemoryChatMessageHistory` message list
backing `ConversationBufferMemory`. -/
structure ChatBotState where
  memory_limit : Nat
  messages : List Message
  deriving DecidableEq, Repr

/-- LangChain's `get_buffer_string` as used by
`ConversationBufferMemory.load_memory_variables` with `return_messages=False`
and the default prefixes: each message rendered as `"Human: <c>"` or
`"AI: <c>"`, joined with a newline; the empty message list renders as `""`. -/
def getBufferString (msgs : List Message) : String :=
  String.intercalate "\n" (msgs.map (fun m =>
    match m with
    | .human c => "Human: " ++ c
    | .ai c => "AI: " ++ c))

/-- `ChatBot.format_chat_history` (`chatbot.py` lines 102-117): loads the
memory's `chat_history` variable and substitutes a sentinel when it is empty
(Python falsiness of the empty string). -/
def format_chat_history (s : ChatBotState) : String :=
  let chat_history := getBufferString s.messages
  if chat_history = "" then "No previous conversation." else chat_history

/-- Insertion-ordered Python dict with string keys (payload/metadata). -/
abbrev Dict := List (String × String)

/-- Python `d[k] = v` on an insertion-ordered dict: overwrite the value in
place if the key exists, otherwise append the new key at the end. -/
def dictSet : Dict → String → String → Dict
  | [], k, v => [(k, v)]
  | (k0, v0) :: rest, k, v =>
    if k0 = k then (k0, v) :: rest else (k0, v0) :: dictSet rest k v

/-- Python `d.get(k, dflt)`. -/
def dictGetD (d : Dict) (k dflt : String) : String :=
  match d.find? (fun p => p.1 = k) with
  | some p => p.2
  | none => dflt

/-- A scored point returned by the Qdrant client's `search` call: the code
reads its `score` and `payload` (`embeddings.py` lines 128-134). -/
structure QdrantHit where
  id : Nat
  score : Int
  payload : Dict
  deriving DecidableEq, Repr

/-- A retrieval result dict built by `EmbeddingManager.search_similar`:
`{"text": ..., "score": ..., "metadata": ...}`. -/
structure SearchResult where
  text : String
  score : Int
  metadata : Dict
  deriving DecidableEq, Repr

/-- `EmbeddingManager.search_similar` (`embeddings.py` lines 106-139): the
Qdrant search outcome is an input; on an exception the function returns the
empty list, otherwise each hit is converted to a result dict with the
payload's `"text"` (default `""`), the score, and the remaining payload as
metadata. -/
def search_similar (searchOutcome : Except String (List QdrantHit)) :
    List SearchResult :=
  match searchOutcome with
  | .error _ => []
  | .ok hits =>
    hits.map (fun h =>
      { text := dictGetD h.payload "text" ""
        score := h.score
        metadata := h.payload.filter (fun p => p.1 ≠ "text") })

/-- The `context_parts` loop of `ChatBot.retrieve_context` (`chatbot.py`
lines 96-98): `enumerate(results, i)` rendering each result as
`"[i] <text>"`. -/
def contextParts : List SearchResult → Nat → List String
  | [], _ => []
  | r :: rs, i => ("[" ++ toString i ++ "] " ++ r.text) :: contextParts rs (i + 1)

/-- `ChatBot.retrieve_context` (`chatbot.py` lines 79-100) applied to the
search results: the empty result list maps to the fixed sentinel, otherwise
the enumerated blocks (1-indexed) are joined by a blank line. -/
def retrieve_context (results : List SearchResult) : String :=
  if results.isEmpty then "No relevant information found in the database."
  else String.intercalate "\n\n" (contextParts results 1)

/-- The RAG prompt of `ChatBot.prompt_template` (`chatbot.py` lines 54-69)
with its three slots substituted, as `LLMChain` does before calling the LLM. -/
def ragPrompt (context chat_history question : String) : String :=
  "You are an intelligent AI assistant. Please answer the question based on the provided context and previous conversation history.\n\nContext:\n"
    ++ context
    ++ "\n\nPrevious Conversation:\n"
    ++ chat_history
    ++ "\n\nCurrent Question: "
    ++ question
    ++ "\n\nPlease provide a detailed and accurate answer based on the context and conversation history above. If the context does not contain relevant information, please say that you don't have the information to answer.\n\nAnswer:"

/-- The simple prompt of the `use_context=False` branch of `ChatBot.chat`
(`chatbot.py` lines 148-153). -/
def simplePrompt (chat_history question : String) : String :=
  "Previous Conversation:\n" ++ chat_history ++ "\n\nCurrent Question: "
    ++ question ++ "\n\nAnswer:"

/-- ASCII whitespace recognised by Python's `str.strip()` (Python also strips
some further Unicode space characters; only ASCII whitespace is modelled). -/
def isPySpace (c : Char) : Bool :=
  c = ' ' || c = '\t' || c = '\n' || c = '\r' || c = '\x0b' || c = '\x0c'

/-- Python `str.strip()`: drop leading and trailing whitespace. -/
def pyStrip (s : String) : String :=
  String.mk ((((s.toList.dropWhile isPySpace).reverse).dropWhile isPySpace).reverse)

/-- An invocation of an external capability made on behalf of one question:
embedding the query (`SentenceTransformer.encode`), searching the vector
store (`QdrantClient.search`), or completing a prompt (the Ollama LLM). -/
inductive ExtCall where
  | embedQuery (query : String)
  | storeSearch (query : String)
  | llmComplete (p : String)
  deriving DecidableEq, Repr

/-- The external world one `chat` call observes: the outcome the Qdrant
search would produce for the query, and the LLM as a function from the
prompt to either a completion or a raised error. -/
structure World where
  searchOutcome : Except String (List QdrantHit)
  llm : String → Except String String

/-- Result of one `ChatBot.chat` call: the returned answer string, the
post-call bot state, and the external calls made during the call. -/
structure ChatOutcome where
  answer : String
  state : ChatBotState
  calls : List ExtCall

/-- `ChatBot.chat` (`chatbot.py` lines 119-167). With `use_context=True` it
retrieves context (embed + search, exceptions absorbed inside
`search_similar`), then `LLMChain.run` loads the memory buffer, formats the
RAG prompt and calls the LLM. If the LLM raises, `LLMChain._call` raises
before any memory write and the `except` branch returns
`"Error processing question: <cause>"` with memory untouched. If the LLM
succeeds, `Chain.prep_outputs` calls `ConversationBufferMemory.save_context`;
this memory has no `input_key` and the chain received two non-memory inputs
(`context` and `question`), so LangChain's `get_prompt_input_key` raises
`ValueError("One input key expected got ['context', 'question']")` — the
exchange is never appended, and the same `except` branch turns that cause
into the returned error answer (the order in which the two keys are listed
inside the message may vary with Python's set iteration order; no property
proved here depends on the message text). With `use_context=False` it
builds the simple prompt from `format_chat_history`, calls the LLM
directly, and on success saves memory manually with single input/output
keys — which works — and returns the stripped response; an LLM error takes
the same `except` branch. -/
def chat (w : World) (s : ChatBotState) (question : String)
    (use_context : Bool) : ChatOutcome :=
  if use_context then
    let results := search_similar w.searchOutcome
    let context := retrieve_context results
    let chat_history := getBufferString s.messages
    let p := ragPrompt context chat_history question
    let callList := [ExtCall.embedQuery question, ExtCall.storeSearch question,
      ExtCall.llmComplete p]
    match w.llm p with
    | .ok _ =>
      { answer := "Error processing question: One input key expected got ['context', 'question']"
        state := s
        calls := callList }
    | .error e =>
      { answer := "Error processing question: " ++ e
        state := s
        calls := callList }
  else
    let chat_history := format_chat_history s
    let p := simplePrompt chat_history question
    match w.llm p with
    | .ok response =>
      { answer := pyStrip response
        state := { s with
          messages := s.messages ++ [Message.human question, Message.ai response] }
        calls := [ExtCall.llmComplete p] }
    | .error e =>
      { answer := "Error processing question: " ++ e
        state := s
        calls := [ExtCall.llmComplete p] }

/-- One `{question, response}` dict produced by `ChatBot.get_history`
(`chatbot.py` lines 182-185). -/
structure HistoryEntry where
  question : String
  response : String
  deriving DecidableEq, Repr

/-- `ChatBot.get_history` (`chatbot.py` lines 174-187): the Python loop
`for i in range(0, len(messages), 2): if i + 1 < len(messages): append`
pairs consecutive messages and drops a trailing unpaired message; the
two-at-a-time recursion below is that loop. -/
def get_history : List Message → List HistoryEntry
  | m1 :: m2 :: rest =>
    { question := m1.content, response := m2.content } :: get_history rest
  | _ => []

/-- Number of complete question/answer exchanges currently in memory. -/
def exchangeCount (s : ChatBotState) : Nat :=
  (get_history s.messages).length

/-- A sequence of `chat(question, use_context=False)` calls against a fixed
external world, threading the bot state. In this code these are the only
`ask` calls that can succeed and record an exchange: on the
`use_context=True` path `save_context` raises after every successful LLM
call, so `chat` returns an error string and never appends (see `chat`). -/
def runChats (w : World) (s : ChatBotState) (qs : List String) : ChatBotState :=
  qs.foldl (fun st q => (chat w st q false).state) s

/-- Result of one Gradio `chat_with_bot` turn (`main.py` lines 69-89). -/
structure BotStep where
  history : List (String × String)
  state : ChatBotState
  calls : List ExtCall

/-- `chat_with_bot` (`main.py` lines 69-89): a blank message
(`not message.strip()`) returns the Gradio history unchanged without calling
the bot; otherwise `chatbot.chat(message, use_context=True)` runs and the
(question, answer) pair is appended to the Gradio history. -/
def chat_with_bot (w : World) (s : ChatBotState) (message : String)
    (history : List (String × String)) : BotStep :=
  if pyStrip message = "" then
    { history := history, state := s, calls := [] }
  else
    let out := chat w s message true
    { history := history ++ [(message, out.answer)], state := out.state
      calls := out.calls }

/-- An indexed record in the Qdrant collection (`PointStruct`): id, vector,
payload. -/
structure Point where
  id : Nat
  vector : List Int
  payload : Dict
  deriving DecidableEq, Repr

/-- Qdrant `upsert` of a single point: a record whose id already exists is
replaced in place, otherwise the point is appended. -/
def upsertOne (store : List Point) (p : Point) : List Point :=
  if store.any (fun q => q.id = p.id) then
    store.map (fun q => if q.id = p.id then p else q)
  else store ++ [p]

/-- Qdrant `upsert` of a batch of points, in order. -/
def upsertBatch (store : List Point) (points : List Point) : List Point :=
  points.foldl upsertOne store

/-- The expression `metadatas[idx] if metadatas else {}` in
`EmbeddingManager.add_documents` (`embeddings.py` line 80): `None` or an
empty list is falsy and yields a fresh empty dict; a non-empty list is
indexed, raising `IndexError` when `idx` is out of range. -/
def currentMetadata (metadatas : Option (List Dict)) (idx : Nat) :
    Except String Dict :=
  match metadatas with
  | none => .ok []
  | some l =>
    if l.isEmpty then .ok []
    else
      match l.get? idx with
      | some d => .ok d
      | none => .error "IndexError: list index out of range"

/-- Effect on the caller's `metadatas` of the in-place mutation
`metadata["text"] = text` (`embeddings.py` line 81): when the dict was taken
from the list it is updated there; a fresh `{}` is not visible to the
caller. -/
def setMetadata (metadatas : Option (List Dict)) (idx : Nat) (d : Dict) :
    Option (List Dict) :=
  match metadatas with
  | none => none
  | some l => if l.isEmpty then some l else some (l.set idx d)

/-- The point-building loop of `EmbeddingManager.add_documents`
(`embeddings.py` lines 78-91): for each `(idx, text)` take the current
metadata dict, set its `"text"` key in place, hash the text to the point id
(`int(hashlib.md5(text.encode()).hexdigest()[:8], 16)`, abstracted as the
`hash` parameter), and emit `PointStruct(id, vector, payload)` with the
embedding of the text. Returns the points together with the caller-visible
final state of `metadatas`. -/
def addPointsFrom (hash : String → Nat) (embed : String → List Int) :
    List String → Nat → Option (List Dict) →
    Except String (List Point × Option (List Dict))
  | [], _, metadatas => .ok ([], metadatas)
  | text :: rest, idx, metadatas =>
    match currentMetadata metadatas idx with
    | .error e => .error e
    | .ok d =>
      let metadata := dictSet d "text" text
      match addPointsFrom hash embed rest (idx + 1) (setMetadata metadatas idx metadata) with
      | .error e => .error e
      | .ok (pts, m) =>
        .ok ({ id := hash text, vector := embed text, payload := metadata } :: pts, m)

/-- `EmbeddingManager.add_documents` (`embeddings.py` lines 63-104): an empty
`texts` list returns immediately; otherwise the texts are embedded in one
batch (elementwise `embed`), the points are built and upserted into the
store. The result carries the new store and the caller-visible `metadatas`.
A Qdrant write failure would re-raise to the caller; the store itself is
in-model, so writes succeed here — every claim about this function concerns
successful ingests. -/
def add_documents (hash : String → Nat) (embed : String → List Int)
    (store : List Point) (texts : List String)
    (metadatas : Option (List Dict)) :
    Except String (List Point × Option (List Dict)) :=
  if texts.isEmpty then .ok (store, metadatas)
  else
    match addPointsFrom hash embed texts 0 metadatas with
    | .ok (points, metadatas2) => .ok (upsertBatch store points, metadatas2)
    | .error e => .error e

/-- Number of distinct indexed records (distinct point ids) in the store. -/
def distinctIdCount (store : List Point) : Nat :=
  (store.map Point.id).dedup.length

/-- `FileProcessor.__init__` (`file_processor.py` lines 12-27) delegates
validation to the LangChain `TextSplitter` constructor invoked by
`RecursiveCharacterTextSplitter`, which raises
`ValueError("Got a larger chunk overlap (...) than chunk size (...), should
be smaller.")` precisely when `chunk_overlap > chunk_size`; otherwise
construction succeeds. -/
def fileProcessor_init (chunk_size chunk_overlap : Int) : Except String Unit :=
  if chunk_size < chunk_overlap then
    .error ("Got a larger chunk overlap (" ++ toString chunk_overlap
      ++ ") than chunk size (" ++ toString chunk_size ++ "), should be smaller.")
  else .ok ()


/-- A concrete retrieval result used in witnesses. -/
def demoResult : SearchResult :=
  { text := "Paris is the capital of France.", score := 1, metadata := [] }

/-- A concrete odd-length message log used in witnesses. -/
def demoMsgs : List Message :=
  [Message.human "q1", Message.ai "a1", Message.human "q2"]

/-- A world whose LLM always raises; the vector store works but is empty. -/
def failWorld : World :=
  { searchOutcome := Except.ok [], llm := fun _ => Except.error "connection refused" }

/-- A bot state already holding one completed exchange. -/
def demoState : ChatBotState :=
  { memory_limit := 5, messages := [Message.human "q1", Message.ai "a1"] }

/-- A world whose vector store is unreachable but whose LLM works. -/
def downWorld : World :=
  { searchOutcome := Except.error "qdrant unreachable"
    llm := fun _ => Except.ok "I do not have the information to answer." }

/-- A bot state with empty memory. -/
def emptyState : ChatBotState := { memory_limit := 5, messages := [] }

/-- A world whose LLM answers every prompt and whose store is empty. -/
def okWorld : World :=
  { searchOutcome := Except.ok [], llm := fun _ => Except.ok "ans" }

/-- The six questions of the C1 evaluation run. -/
def sixQuestions : List String := ["q1", "q2", "q3", "q4", "q5", "q6"]

/-- Caller-visible effect of the ingest loop on the metadata list: position
`idx` onward is rewritten in order, each dict getting its `"text"` key set to
the corresponding chunk text (specification of the mutation sequence, proved
below to be what `addPointsFrom` leaves behind). -/
def applyTexts : List Dict → Nat → List String → List Dict
  | l, _, [] => l
  | l, idx, text :: rest =>
    applyTexts (l.set idx (dictSet ((l.get? idx).getD []) "text" text)) (idx + 1) rest

/-! Theorems -/

/-- Counterexample to claim C5 as stated: with `chunk_size = 100` and
`chunk_overlap = 100` (so `chunk_overlap >= chunk_size`), constructing the
chunker succeeds — the LangChain check is strict (`>`), so equality does not
fail. -/
theorem fileProcessor_init_eq_bound_ok :
    fileProcessor_init 100 100 = Except.ok () := by
  simp [fileProcessor_init]

/-- Claim C5 (amended): constructing the chunker fails with the
configuration error exactly when `chunk_overlap > chunk_size`; for
`chunk_overlap <= chunk_size` (equality included) construction succeeds. -/
theorem fileProcessor_init_spec (chunk_size chunk_overlap : Int) :
    (chunk_size < chunk_overlap →
      ∃ e, fileProcessor_init chunk_size chunk_overlap = Except.error e)
    ∧ (chunk_overlap ≤ chunk_size →
      fileProcessor_init chunk_size chunk_overlap = Except.ok ()) := by
  constructor
  · intro h
    unfold fileProcessor_init
    rw [if_pos h]
    exact ⟨_, rfl⟩
  · intro h
    simp [fileProcessor_init, not_lt.mpr h]

/-- Witness for C5's amended theorem at concrete configurations. -/
theorem fileProcessor_init_spec_witness :
    (∃ e, fileProcessor_init 5 10 = Except.error e)
    ∧ fileProcessor_init 10 5 = Except.ok () :=
  ⟨(fileProcessor_init_spec 5 10).1 (by norm_num),
   (fileProcessor_init_spec 10 5).2 (by norm_num)⟩

theorem contextParts_length :
    ∀ (results : List SearchResult) (i : Nat),
      (contextParts results i).length = results.length
  | [], _ => rfl
  | _ :: rs, i => by
    simp [contextParts, contextParts_length rs (i + 1)]

theorem contextParts_get? :
    ∀ (results : List SearchResult) (base j : Nat) (r : SearchResult),
      results.get? j = some r →
      (contextParts results base).get? j
        = some ("[" ++ toString (base + j) ++ "] " ++ r.text)
  | [], _, j, r => by intro h; simp at h
  | x :: rs, base, 0, r => by
    intro h
    simp at h
    subst h
    simp [contextParts]
  | x :: rs, base, j + 1, r => by
    intro h
    simp only [List.get?_cons_succ] at h
    have ih := contextParts_get? rs (base + 1) j r h
    have harith : base + 1 + j = base + (j + 1) := by omega
    simpa [contextParts, harith] using ih

/-- Claim C7: the empty search-result list yields the fixed
no-relevant-information sentinel; a non-empty list yields the blocks
`"[i] <text>"` (1-indexed, input order preserved) joined by a blank line. -/
theorem retrieve_context_spec (results : List SearchResult) :
    (results = [] →
      retrieve_context results = "No relevant information found in the database.")
    ∧ (results ≠ [] → ∃ blocks : List String,
        retrieve_context results = String.intercalate "\n\n" blocks
        ∧ blocks.length = results.length
        ∧ ∀ j r, results.get? j = some r →
            blocks.get? j = some ("[" ++ toString (j + 1) ++ "] " ++ r.text)) := by
  constructor
  · intro h; subst h; rfl
  · intro h
    refine ⟨contextParts results 1, ?_, contextParts_length results 1, ?_⟩
    · simp [retrieve_context, List.isEmpty_iff, h]
    · intro j r hj
      have := contextParts_get? results 1 j r hj
      simpa [Nat.add_comm] using this

/-- Witness for C7 at a concrete one-element result list. -/
theorem retrieve_context_spec_witness :
    ∃ blocks : List String,
      retrieve_context [demoResult] = String.intercalate "\n\n" blocks
      ∧ blocks.length = 1
      ∧ ∀ j r, [demoResult].get? j = some r →
          blocks.get? j = some ("[" ++ toString (j + 1) ++ "] " ++ r.text) :=
  (retrieve_context_spec [demoResult]).2 (by simp)

theorem get_history_length :
    ∀ msgs : List Message, (get_history msgs).length = msgs.length / 2
  | [] => by simp [get_history]
  | [_] => by simp [get_history]
  | _ :: _ :: rest => by
    have ih := get_history_length rest
    simp [get_history, ih]
    omega

theorem get_history_get? :
    ∀ (msgs : List Message) (j : Nat) (q a : Message),
      msgs.get? (2 * j) = some q → msgs.get? (2 * j + 1) = some a →
      (get_history msgs).get? j
        = some { question := q.content, response := a.content }
  | [], j, q, a => by intro h _; simp at h
  | [m], j, q, a => by
    intro h1 h2
    cases j with
    | zero => simp at h2
    | succ n =>
      have : 2 * (n + 1) = 2 * n + 1 + 1 := by omega
      rw [this] at h1
      simp at h1
  | m1 :: m2 :: rest, j, q, a => by
    intro h1 h2
    cases j with
    | zero =>
      simp at h1 h2
      subst h1; subst h2
      simp [get_history]
    | succ n =>
      have e1 : 2 * (n + 1) = 2 * n + 1 + 1 := by omega
      rw [e1] at h1 h2
      simp only [List.get?_cons_succ] at h1 h2
      have ih := get_history_get? rest n q a h1 h2
      simpa [get_history] using ih

/-- Claim C10: `get_history` returns exactly `⌊n/2⌋` entries for `n` stored
messages, pairing message `2j` (question) with message `2j+1` (response);
an odd trailing message is silently dropped (the length formula makes it
unrepresented). -/
theorem get_history_pairs (msgs : List Message) :
    (get_history msgs).length = msgs.length / 2
    ∧ ∀ j q a, msgs.get? (2 * j) = some q → msgs.get? (2 * j + 1) = some a →
        (get_history msgs).get? j
          = some { question := q.content, response := a.content } :=
  ⟨get_history_length msgs, fun j q a h1 h2 => get_history_get? msgs j q a h1 h2⟩

/-- Witness for C10: three stored messages give one pair and the trailing
message is dropped. -/
theorem get_history_pairs_witness :
    (get_history demoMsgs).length = 1
    ∧ (get_history demoMsgs).get? 0 = some { question := "q1", response := "a1" } :=
  ⟨(get_history_pairs demoMsgs).1, (get_history_pairs demoMsgs).2 0 _ _ rfl rfl⟩

/-- Claim C2: if the LLM raises on every prompt, `chat(question, True)`
returns the textual error answer `"Error processing question: <cause>"`
(no exception reaches the caller — the function totally returns a string),
and the conversation memory is unchanged: same message list, same exchange
count. -/
theorem chat_llm_failure (w : World) (s : ChatBotState) (question : String)
    (hfail : ∀ p, ∃ e, w.llm p = Except.error e) :
    (∃ cause, (chat w s question true).answer
      = "Error processing question: " ++ cause)
    ∧ (chat w s question true).state.messages = s.messages
    ∧ exchangeCount (chat w s question true).state = exchangeCount s := by
  obtain ⟨e, he⟩ := hfail (ragPrompt (retrieve_context (search_similar w.searchOutcome))
    (getBufferString s.messages) question)
  simp only [chat, he]
  exact ⟨⟨e, rfl⟩, rfl, rfl⟩

/-- Witness for C2 at the spec's scenario question with an always-failing
LLM. -/
theorem chat_llm_failure_witness :
    (∃ cause, (chat failWorld demoState "What is the capital of France?" true).answer
      = "Error processing question: " ++ cause)
    ∧ (chat failWorld demoState "What is the capital of France?" true).state.messages
      = demoState.messages
    ∧ exchangeCount (chat failWorld demoState "What is the capital of France?" true).state
      = exchangeCount demoState :=
  chat_llm_failure failWorld demoState "What is the capital of France?"
    (fun _ => ⟨"connection refused", rfl⟩)

/-- Claim C4: when the Qdrant search raises or the store is empty,
`search_similar` returns the empty list (it does not raise), the retrieval
step maps that to the fixed no-relevant-information sentinel, and the
orchestrator still proceeds to generation: the call trace of
`chat(question, True)` ends with an LLM call whose prompt carries the
sentinel as its context slot. -/
theorem retrieval_failure_degrades (w : World) (s : ChatBotState) (question : String)
    (h : (∃ e, w.searchOutcome = Except.error e) ∨ w.searchOutcome = Except.ok []) :
    search_similar w.searchOutcome = []
    ∧ retrieve_context (search_similar w.searchOutcome)
      = "No relevant information found in the database."
    ∧ (chat w s question true).calls
      = [ExtCall.embedQuery question, ExtCall.storeSearch question,
         ExtCall.llmComplete (ragPrompt "No relevant information found in the database."
           (getBufferString s.messages) question)] := by
  have hs : search_similar w.searchOutcome = [] := by
    rcases h with ⟨e, he⟩ | he <;> simp [search_similar, he]
  refine ⟨hs, by rw [hs]; rfl, ?_⟩
  simp only [chat, hs]
  cases w.llm (ragPrompt (retrieve_context [])
      (getBufferString s.messages) question) <;>
    simp [retrieve_context]

/-- Witness for C4 with an unreachable vector store. -/
theorem retrieval_failure_degrades_witness :
    search_similar downWorld.searchOutcome = []
    ∧ retrieve_context (search_similar downWorld.searchOutcome)
      = "No relevant information found in the database."
    ∧ (chat downWorld emptyState "hello" true).calls
      = [ExtCall.embedQuery "hello", ExtCall.storeSearch "hello",
         ExtCall.llmComplete (ragPrompt "No relevant information found in the database."
           (getBufferString emptyState.messages) "hello")] :=
  retrieval_failure_degrades downWorld emptyState "hello"
    (Or.inl ⟨"qdrant unreachable", rfl⟩)

theorem dropWhile_of_all {p : Char → Bool} :
    ∀ {l : List Char}, l.all p = true → l.dropWhile p = []
  | [], _ => rfl
  | c :: cs, h => by
    rw [List.all_cons, Bool.and_eq_true] at h
    simp [List.dropWhile, h.1, dropWhile_of_all h.2]

theorem pyStrip_blank (m : String) (h : m.toList.all isPySpace = true) :
    pyStrip m = "" := by
  unfold pyStrip
  rw [dropWhile_of_all h]
  rfl

/-- Claim C8: a blank (empty or whitespace-only) message is rejected by the
entry point before anything runs: the call trace is empty (no embedding, no
vector-store search, no LLM call), the UI history is returned unchanged and
the bot state is untouched. -/
theorem blank_question_no_calls (w : World) (s : ChatBotState) (message : String)
    (history : List (String × String)) (h : message.toList.all isPySpace = true) :
    (chat_with_bot w s message history).calls = []
    ∧ (chat_with_bot w s message history).history = history
    ∧ (chat_with_bot w s message history).state = s := by
  have hb := pyStrip_blank message h
  simp [chat_with_bot, hb]

/-- Witness for C8 at a whitespace-only message. -/
theorem blank_question_no_calls_witness :
    (chat_with_bot downWorld demoState "  " []).calls = []
    ∧ (chat_with_bot downWorld demoState "  " []).history = []
    ∧ (chat_with_bot downWorld demoState "  " []).state = demoState :=
  blank_question_no_calls downWorld demoState "  " [] (by decide)

theorem get_history_append_pair :
    ∀ (ms : List Message) (q r : Message), ms.length % 2 = 0 →
      get_history (ms ++ [q, r])
        = get_history ms ++ [{ question := q.content, response := r.content }]
  | [], q, r, _ => rfl
  | [_], q, r, h => by simp at h
  | m1 :: m2 :: rest, q, r, h => by
    have h' : rest.length % 2 = 0 := by
      simp [List.length_cons] at h
      omega
    simp [get_history, get_history_append_pair rest q r h']

theorem runChats_history (w : World) (hok : ∀ p, ∃ r, w.llm p = Except.ok r) :
    ∀ (qs : List String) (s : ChatBotState), s.messages.length % 2 = 0 →
      ∃ answers : List String, answers.length = qs.length
        ∧ (runChats w s qs).messages.length % 2 = 0
        ∧ get_history (runChats w s qs).messages
          = get_history s.messages
            ++ List.zipWith (fun q a => ({ question := q, response := a } : HistoryEntry)) qs answers
  | [], s, hs => ⟨[], rfl, hs, by simp [runChats]⟩
  | q :: qs, s, hs => by
    obtain ⟨r, hr⟩ := hok (simplePrompt (format_chat_history s) q)
    have hstep : (chat w s q false).state.messages
        = s.messages ++ [Message.human q, Message.ai r] := by
      simp [chat, hr]
    have hs' : (chat w s q false).state.messages.length % 2 = 0 := by
      rw [hstep]
      simp
      omega
    obtain ⟨answers, hlen, heven, hhist⟩ := runChats_history w hok qs (chat w s q false).state hs'
    have hfold : runChats w s (q :: qs) = runChats w (chat w s q false).state qs := rfl
    refine ⟨r :: answers, by simp [hlen], by rw [hfold]; exact heven, ?_⟩
    rw [hfold, hhist, hstep, get_history_append_pair s.messages _ _ hs]
    simp [List.zipWith, Message.content]

/-- Claim C6: starting from an empty conversation, after any sequence of
successful `ask()` calls, `get_history` returns exactly one
`{question, response}` record per exchange, carrying the asked questions in
chronological order (the zip pairs question `i` with the answer of call
`i`). In this code an `ask` can only succeed on the `use_context=False`
path — the context path returns an error string on every call because
`save_context` raises even after a successful LLM call (see `chat`) — so a
sequence of successful asks is a sequence of no-context asks with the LLM
succeeding on every prompt, which is what `runChats` with `hok` runs. -/
theorem get_history_chronological (w : World) (qs : List String) (s0 : ChatBotState)
    (h0 : s0.messages = []) (hok : ∀ p, ∃ r, w.llm p = Except.ok r) :
    ∃ answers : List String, answers.length = qs.length
      ∧ get_history (runChats w s0 qs).messages
        = List.zipWith (fun q a => ({ question := q, response := a } : HistoryEntry)) qs answers := by
  obtain ⟨answers, hlen, _, hhist⟩ := runChats_history w hok qs s0 (by simp [h0])
  refine ⟨answers, hlen, ?_⟩
  rw [hhist, h0]
  simp [get_history]

/-- Witness for C6 after two successful asks. -/
theorem get_history_chronological_witness :
    ∃ answers : List String, answers.length = 2
      ∧ get_history (runChats okWorld emptyState ["q1", "q2"]).messages
        = List.zipWith (fun q a => ({ question := q, response := a } : HistoryEntry)) ["q1", "q2"] answers :=
  get_history_chronological okWorld ["q1", "q2"] emptyState rfl
    (fun _ => ⟨"ans", rfl⟩)

/-- Claim C1, evaluation at the failing input: with the configured bound
`memory_limit = 5`, after six successful `ask(use_context=False)` calls —
the only ask path that can succeed and record exchanges in this code, since
the context path's `save_context` raises on every call (see `chat`) — the
memory holds all six exchanges: the `memory_limit` field is stored but
never applied and the underlying `ConversationBufferMemory` is unbounded.
The oldest exchange `q1` is still present at the front, and the history
rendered for the next prompt is the full twelve-line transcript of all six
exchanges; nothing is evicted. -/
theorem memory_limit_not_enforced :
    (runChats okWorld emptyState sixQuestions).memory_limit = 5
    ∧ exchangeCount (runChats okWorld emptyState sixQuestions) = 6
    ∧ (get_history (runChats okWorld emptyState sixQuestions).messages).get? 0
      = some { question := "q1", response := "ans" }
    ∧ format_chat_history (runChats okWorld emptyState sixQuestions)
      = "Human: q1\nAI: ans\nHuman: q2\nAI: ans\nHuman: q3\nAI: ans\nHuman: q4\nAI: ans\nHuman: q5\nAI: ans\nHuman: q6\nAI: ans" := by
  refine ⟨rfl, rfl, rfl, ?_⟩
  rfl

theorem addPointsFrom_ids (hash : String → Nat) (embed : String → List Int) :
    ∀ (ts : List String) (idx : Nat) (metadatas : Option (List Dict))
      (pts : List Point) (m : Option (List Dict)),
      addPointsFrom hash embed ts idx metadatas = Except.ok (pts, m) →
      pts.map Point.id = ts.map hash
  | [], idx, metadatas, pts, m => by
    intro h
    simp [addPointsFrom] at h
    simp [← h.1]
  | t :: ts, idx, metadatas, pts, m => by
    intro h
    cases hcm : currentMetadata metadatas idx with
    | error e => simp [addPointsFrom, hcm] at h
    | ok d =>
      cases hrec : addPointsFrom hash embed ts (idx + 1)
          (setMetadata metadatas idx (dictSet d "text" t)) with
      | error e => simp [addPointsFrom, hcm, hrec] at h
      | ok pm =>
        have ih := addPointsFrom_ids hash embed ts (idx + 1)
          (setMetadata metadatas idx (dictSet d "text" t)) pm.1 pm.2 (by rw [hrec])
        simp [addPointsFrom, hcm, hrec] at h
        simp [← h.1, ih]

theorem map_id_replace (p : Point) :
    ∀ store : List Point,
      (store.map (fun q => if q.id = p.id then p else q)).map Point.id
        = store.map Point.id
  | [] => rfl
  | q :: store => by
    by_cases hq : q.id = p.id <;>
      simp [hq, map_id_replace p store]

theorem upsertOne_ids_mem (store : List Point) (p : Point)
    (h : p.id ∈ store.map Point.id) :
    (upsertOne store p).map Point.id = store.map Point.id := by
  have hany : store.any (fun q => q.id = p.id) = true := by
    rw [List.any_eq_true]
    obtain ⟨q, hq, hid⟩ := List.mem_map.mp h
    exact ⟨q, hq, by simp [hid]⟩
  unfold upsertOne
  rw [if_pos hany]
  exact map_id_replace p store

theorem upsertOne_ids_not_mem (store : List Point) (p : Point)
    (h : p.id ∉ store.map Point.id) :
    (upsertOne store p).map Point.id = store.map Point.id ++ [p.id] := by
  have hany : store.any (fun q => q.id = p.id) = false := by
    rw [List.any_eq_false]
    intro q hq
    simp
    intro hid
    exact h (List.mem_map.mpr ⟨q, hq, hid⟩)
  unfold upsertOne
  simp [hany]

theorem mem_upsertOne_ids (store : List Point) (p : Point) (x : Nat)
    (h : x ∈ store.map Point.id ∨ x = p.id) :
    x ∈ (upsertOne store p).map Point.id := by
  by_cases hp : p.id ∈ store.map Point.id
  · rw [upsertOne_ids_mem store p hp]
    rcases h with h | h
    · exact h
    · rw [h]; exact hp
  · rw [upsertOne_ids_not_mem store p hp]
    rcases h with h | h
    · exact List.mem_append_left _ h
    · exact List.mem_append_right _ (by simp [h])

theorem mem_upsertBatch_ids :
    ∀ (batch store : List Point) (x : Nat),
      x ∈ store.map Point.id → x ∈ (upsertBatch store batch).map Point.id
  | [], _, _, h => h
  | p :: batch, store, x, h =>
    mem_upsertBatch_ids batch (upsertOne store p) x
      (mem_upsertOne_ids store p x (Or.inl h))

theorem batch_mem_upsertBatch_ids :
    ∀ (batch store : List Point) (p : Point), p ∈ batch →
      p.id ∈ (upsertBatch store batch).map Point.id
  | [], _, p, h => absurd h (List.not_mem_nil p)
  | q :: batch, store, p, h => by
    rcases List.mem_cons.mp h with h | h
    · subst h
      exact mem_upsertBatch_ids batch (upsertOne store p) p.id
        (mem_upsertOne_ids store p p.id (Or.inr rfl))
    · exact batch_mem_upsertBatch_ids batch (upsertOne store q) p h

theorem upsertBatch_ids_of_mem :
    ∀ (batch store : List Point), (∀ p ∈ batch, p.id ∈ store.map Point.id) →
      (upsertBatch store batch).map Point.id = store.map Point.id
  | [], _, _ => rfl
  | p :: batch, store, h => by
    have h1 := upsertOne_ids_mem store p (h p (List.mem_cons_self p batch))
    have ih := upsertBatch_ids_of_mem batch (upsertOne store p)
      (fun q hq => by rw [h1]; exact h q (List.mem_cons_of_mem p hq))
    calc (upsertBatch store (p :: batch)).map Point.id
        = (upsertBatch (upsertOne store p) batch).map Point.id := rfl
      _ = (upsertOne store p).map Point.id := ih
      _ = store.map Point.id := h1

/-- Claim C3: point ids are a deterministic function of the chunk text (the
batch built from `texts` always carries ids `texts.map hash`), so ingesting
the same texts twice — whatever the metadata on either pass — leaves the id
multiset of the store unchanged on the second pass: the second ingest
overwrites instead of duplicating, and the number of distinct indexed
records equals that after a single ingest. -/
theorem add_documents_idempotent (hash : String → Nat) (embed : String → List Int)
    (store : List Point) (texts : List String) (m0 m1 : Option (List Dict))
    (s1 s2 : List Point) (r1 r2 : Option (List Dict))
    (h1 : add_documents hash embed store texts m0 = Except.ok (s1, r1))
    (h2 : add_documents hash embed s1 texts m1 = Except.ok (s2, r2)) :
    s2.map Point.id = s1.map Point.id
    ∧ distinctIdCount s2 = distinctIdCount s1 := by
  by_cases he : texts.isEmpty
  · unfold add_documents at h1 h2
    rw [if_pos he] at h1 h2
    simp at h1 h2
    rw [← h2.1]
    exact ⟨rfl, rfl⟩
  · unfold add_documents at h1 h2
    rw [if_neg he] at h1 h2
    cases hp1 : addPointsFrom hash embed texts 0 m0 with
    | error e => rw [hp1] at h1; simp at h1
    | ok pm1 =>
      obtain ⟨pts1, mm1⟩ := pm1
      rw [hp1] at h1
      simp at h1
      cases hp2 : addPointsFrom hash embed texts 0 m1 with
      | error e => rw [hp2] at h2; simp at h2
      | ok pm2 =>
        obtain ⟨pts2, mm2⟩ := pm2
        rw [hp2] at h2
        simp at h2
        have ids1 := addPointsFrom_ids hash embed texts 0 m0 pts1 mm1 hp1
        have ids2 := addPointsFrom_ids hash embed texts 0 m1 pts2 mm2 hp2
        have hs1 : s1 = upsertBatch store pts1 := h1.1.symm
        have hs2 : s2 = upsertBatch s1 pts2 := h2.1.symm
        have key : ∀ p ∈ pts2, p.id ∈ s1.map Point.id := by
          intro p hp
          have hmem : p.id ∈ pts2.map Point.id := List.mem_map_of_mem Point.id hp
          rw [ids2, ← ids1] at hmem
          obtain ⟨q, hq, hqid⟩ := List.mem_map.mp hmem
          have := batch_mem_upsertBatch_ids pts1 store q hq
          rw [hqid] at this
          rw [hs1]
          exact this
        have final : s2.map Point.id = s1.map Point.id := by
          rw [hs2]
          exact upsertBatch_ids_of_mem pts2 s1 key
        exact ⟨final, by unfold distinctIdCount; rw [final]⟩

/-- Witness for C3: ingesting the text `"a"` twice into an empty store
yields the same single record both times. -/
theorem add_documents_idempotent_witness :
    ([{ id := 1, vector := [], payload := [("text", "a")] }] : List Point).map Point.id
      = ([{ id := 1, vector := [], payload := [("text", "a")] }] : List Point).map Point.id
    ∧ distinctIdCount [{ id := 1, vector := [], payload := [("text", "a")] }]
      = distinctIdCount [{ id := 1, vector := [], payload := [("text", "a")] }] :=
  add_documents_idempotent String.length (fun _ => []) [] ["a"] none none
    [{ id := 1, vector := [], payload := [("text", "a")] }]
    [{ id := 1, vector := [], payload := [("text", "a")] }]
    none none rfl rfl

theorem get?_append_len :
    ∀ (a : List Dict) (b : Dict) (c : List Dict), (a ++ b :: c).get? a.length = some b
  | [], _, _ => rfl
  | _ :: a, b, c => get?_append_len a b c

theorem set_append_len :
    ∀ (a : List Dict) (b : Dict) (c : List Dict) (v : Dict),
      (a ++ b :: c).set a.length v = a ++ v :: c
  | [], _, _, _ => rfl
  | x :: a, b, c, v => by
    simp [List.set, set_append_len a b c v]

theorem addPointsFrom_some (hash : String → Nat) (embed : String → List Int) :
    ∀ (ts : List String) (l : List Dict) (idx : Nat),
      l ≠ [] → idx + ts.length ≤ l.length →
      ∃ pts, addPointsFrom hash embed ts idx (some l)
        = Except.ok (pts, some (applyTexts l idx ts))
  | [], l, idx, _, _ => ⟨[], rfl⟩
  | t :: ts, l, idx, hne, hlen => by
    rw [List.length_cons] at hlen
    have hidx : idx < l.length := by omega
    obtain ⟨d, hd⟩ : ∃ d, l.get? idx = some d := by
      cases hg : l.get? idx with
      | none => rw [List.get?_eq_none] at hg; omega
      | some d => exact ⟨d, rfl⟩
    have hempty : l.isEmpty = false := by
      cases l with
      | nil => exact absurd rfl hne
      | cons x xs => rfl
    have hd' : l[idx]? = some d := by
      rw [← List.get?_eq_getElem?]
      exact hd
    have hcm : currentMetadata (some l) idx = Except.ok d := by
      simp [currentMetadata, hempty, hd']
    have hne1 : l.set idx (dictSet d "text" t) ≠ [] := by
      intro hc
      apply hne
      have hlen0 := congrArg List.length hc
      rw [List.length_set, List.length_nil] at hlen0
      exact List.eq_nil_of_length_eq_zero hlen0
    have hlen1 : (idx + 1) + ts.length ≤ (l.set idx (dictSet d "text" t)).length := by
      rw [List.length_set]
      omega
    obtain ⟨pts, hpts⟩ := addPointsFrom_some hash embed ts
      (l.set idx (dictSet d "text" t)) (idx + 1) hne1 hlen1
    refine ⟨{ id := hash t, vector := embed t, payload := dictSet d "text" t } :: pts, ?_⟩
    have hsm : setMetadata (some l) idx (dictSet d "text" t)
        = some (l.set idx (dictSet d "text" t)) := by
      simp [setMetadata, hempty]
    have happ : applyTexts l idx (t :: ts)
        = applyTexts (l.set idx (dictSet d "text" t)) (idx + 1) ts := by
      simp only [applyTexts, hd, Option.getD_some]
    rw [happ]
    simp only [addPointsFrom, hcm, hsm, hpts]

theorem applyTexts_zipWith :
    ∀ (ts : List String) (done todo : List Dict), todo.length = ts.length →
      applyTexts (done ++ todo) done.length ts
        = done ++ List.zipWith (fun d t => dictSet d "text" t) todo ts
  | [], done, todo, h => by
    have : todo = [] := List.eq_nil_of_length_eq_zero h
    subst this
    simp [applyTexts]
  | t :: ts, done, [], h => by simp at h
  | t :: ts, done, d :: todo, h => by
    have hget := get?_append_len done d todo
    have hset := set_append_len done d todo (dictSet d "text" t)
    have hlen : todo.length = ts.length := by
      simp [List.length_cons] at h
      omega
    have ih := applyTexts_zipWith ts (done ++ [dictSet d "text" t]) todo hlen
    simp only [applyTexts, hget, Option.getD_some, hset]
    have hrw : done ++ dictSet d "text" t :: todo
        = (done ++ [dictSet d "text" t]) ++ todo := by simp
    have hlenrw : done.length + 1 = (done ++ [dictSet d "text" t]).length := by simp
    rw [hrw, hlenrw, ih]
    simp [List.zipWith]

theorem zipWith_get?_eq :
    ∀ (l : List Dict) (ts : List String) (i : Nat) (d : Dict) (t : String),
      l.get? i = some d → ts.get? i = some t →
      (List.zipWith (fun d t => dictSet d "text" t) l ts).get? i
        = some (dictSet d "text" t)
  | [], _, i, d, t => by intro h _; simp at h
  | _ :: _, [], i, d, t => by intro _ h; simp at h
  | x :: l, y :: ts, 0, d, t => by
    intro h1 h2
    simp at h1 h2
    subst h1; subst h2
    rfl
  | x :: l, y :: ts, i + 1, d, t => by
    intro h1 h2
    simp only [List.get?_cons_succ] at h1 h2
    simpa [List.zipWith] using zipWith_get?_eq l ts i d t h1 h2

theorem dictGetD_cons_ne (k0 v0 : String) (tail : Dict) (k dflt : String)
    (hk : ¬k0 = k) : dictGetD ((k0, v0) :: tail) k dflt = dictGetD tail k dflt := by
  simp [dictGetD, List.find?, hk]

theorem dictGetD_dictSet :
    ∀ (d : Dict) (k v dflt : String), dictGetD (dictSet d k v) k dflt = v
  | [], k, v, dflt => by simp [dictSet, dictGetD, List.find?]
  | (k0, v0) :: rest, k, v, dflt => by
    by_cases hk : k0 = k
    · simp [dictSet, hk, dictGetD, List.find?]
    · simp only [dictSet, if_neg hk]
      rw [dictGetD_cons_ne k0 v0 (dictSet rest k v) k dflt hk,
        dictGetD_dictSet rest k v dflt]

/-- Claim C9: when a metadata list of matching length is supplied to a
non-empty ingest, the call succeeds and the caller's metadata dicts are
mutated in place: afterwards the list is exactly the original with each
dict's `"text"` key set (added, or overwritten if present) to the
corresponding chunk text, and looking up `"text"` in the mutated dict
returns that chunk text. -/
theorem add_documents_mutates_metadatas (hash : String → Nat)
    (embed : String → List Int) (store : List Point) (texts : List String)
    (l : List Dict) (hlen : l.length = texts.length) (hne : texts ≠ []) :
    ∃ points, add_documents hash embed store texts (some l)
        = Except.ok (points,
            some (List.zipWith (fun d t => dictSet d "text" t) l texts))
      ∧ (List.zipWith (fun d t => dictSet d "text" t) l texts).length = l.length
      ∧ ∀ i d t, l.get? i = some d → texts.get? i = some t →
          (List.zipWith (fun d t => dictSet d "text" t) l texts).get? i
            = some (dictSet d "text" t)
          ∧ dictGetD (dictSet d "text" t) "text" "" = t := by
  have hlne : l ≠ [] := by
    intro hc
    subst hc
    simp at hlen
    exact hne (List.eq_nil_of_length_eq_zero hlen.symm)
  have hempty : texts.isEmpty = false := by
    cases texts with
    | nil => exact absurd rfl hne
    | cons x xs => rfl
  obtain ⟨pts, hpts⟩ := addPointsFrom_some hash embed texts l 0 hlne (by omega)
  have happ : applyTexts l 0 texts
      = List.zipWith (fun d t => dictSet d "text" t) l texts := by
    have := applyTexts_zipWith texts [] l hlen
    simpa using this
  refine ⟨upsertBatch store pts, ?_, ?_, ?_⟩
  · simp only [add_documents, hempty, Bool.false_eq_true, if_false, hpts, happ]
  · rw [List.length_zipWith]
    omega
  · intro i d t h1 h2
    exact ⟨zipWith_get?_eq l texts i d t h1 h2, dictGetD_dictSet d "text" t ""⟩

/-- Witness for C9: one chunk `"a"` with one caller metadata dict; the dict
gains `"text" -> "a"` in place. -/
theorem add_documents_mutates_metadatas_witness :
    ∃ points, add_documents String.length (fun _ => []) [] ["a"]
        (some [[("filename", "f.txt")]])
        = Except.ok (points,
            some (List.zipWith (fun d t => dictSet d "text" t)
              [[("filename", "f.txt")]] ["a"]))
      ∧ (List.zipWith (fun d t => dictSet d "text" t)
          [[("filename", "f.txt")]] ["a"]).length = 1
      ∧ ∀ i d t, ([[("filename", "f.txt")]] : List Dict).get? i = some d →
          (["a"] : List String).get? i = some t →
          (List.zipWith (fun d t => dictSet d "text" t)
            [[("filename", "f.txt")]] ["a"]).get? i = some (dictSet d "text" t)
          ∧ dictGetD (dictSet d "text" t) "text" "" = t :=
  add_documents_mutates_metadatas String.length (fun _ => []) [] ["a"]
    [[("filename", "f.txt")]] rfl (by simp)
